import Mathlib

/-!
Verification of the representation networks in
`building_blocks/representation.py` (TowerRepresentation and
PyramidRepresentation).

Tensors are shallowly embedded as a shape (batch, channel, height, width)
together with a total data function into the rationals; values outside the
shape bounds are junk that no operation depends on.  Each tensor-library
operation used by the source (2-D convolution, rectified linear unit,
channel concatenation, spatial tiling via repeat, view-reshape, average
pooling, broadcast addition) is embedded as a function that returns
`none` exactly when the numeric backend would raise a shape error.
-/

structure Tensor4 where
  n : Nat
  c : Nat
  h : Nat
  w : Nat
  data : Nat → Nat → Nat → Nat → ℚ

structure Tensor2 where
  n : Nat
  d : Nat
  data : Nat → Nat → ℚ

def Tensor4.shape (t : Tensor4) : Nat × Nat × Nat × Nat := (t.n, t.c, t.h, t.w)

/-- Zero-padded read of a tensor at possibly out-of-range (signed) spatial
coordinates, as used by a convolution with nonzero padding. -/
def Tensor4.pad (t : Tensor4) (b c : Nat) (i j : Int) : ℚ :=
  if 0 ≤ i ∧ i < (t.h : Int) ∧ 0 ≤ j ∧ j < (t.w : Int) then
    t.data b c i.toNat j.toNat
  else 0

/-- Parameters of a square-kernel `nn.Conv2d(inC, outC, kernel_size=k,
stride, padding)` layer: hyperparameters plus learned weight and bias. -/
structure Conv2dP where
  inC : Nat
  outC : Nat
  k : Nat
  stride : Nat
  padding : Nat
  weight : Nat → Nat → Nat → Nat → ℚ
  bias : Nat → ℚ

/-- Conv2d forward.  Fails (like the backend) when the channel count of the
input does not match `inC` or the padded input is smaller than the kernel
(output size would be < 1).  Output spatial size is
`(size + 2*padding - k) / stride + 1`, cross-correlation semantics. -/
def Conv2dP.apply (cp : Conv2dP) (t : Tensor4) : Option Tensor4 :=
  if cp.k ≤ t.h + 2 * cp.padding ∧ cp.k ≤ t.w + 2 * cp.padding ∧
      t.c = cp.inC ∧ 0 < cp.stride then
    some { n := t.n, c := cp.outC,
           h := (t.h + 2 * cp.padding - cp.k) / cp.stride + 1,
           w := (t.w + 2 * cp.padding - cp.k) / cp.stride + 1,
           data := fun b o i j =>
             cp.bias o + Finset.sum (Finset.range cp.inC) fun ci =>
               Finset.sum (Finset.range cp.k) fun ki =>
                 Finset.sum (Finset.range cp.k) fun kj =>
                   cp.weight o ci ki kj *
                     t.pad b ci (Int.ofNat (i * cp.stride + ki) - Int.ofNat cp.padding)
                       (Int.ofNat (j * cp.stride + kj) - Int.ofNat cp.padding) }
  else none

/-- Elementwise rectified linear unit `F.relu`. -/
def relu (t : Tensor4) : Tensor4 :=
  { t with data := fun b c i j => max 0 (t.data b c i j) }

/-- Tiling `t.repeat(1, 1, a, b)`: repeat the spatial extent `a` (resp. `b`) times. -/
def Tensor4.repeatHW (t : Tensor4) (a b : Nat) : Tensor4 :=
  { t with
    h := t.h * a
    w := t.w * b
    data := fun bb cc i j => t.data bb cc (i % t.h) (j % t.w) }

/-- Concatenation `torch.cat((t1, t2), dim=1)` along the channel axis;
fails unless batch and spatial dimensions agree. -/
def cat1 (t1 t2 : Tensor4) : Option Tensor4 :=
  if t1.n = t2.n ∧ t1.h = t2.h ∧ t1.w = t2.w then
    some { n := t1.n, c := t1.c + t2.c, h := t1.h, w := t1.w,
           data := fun b c i j =>
             if c < t1.c then t1.data b c i j else t2.data b (c - t1.c) i j }
  else none

/-- Broadcast compatibility of a single dimension pair (equal, or one side 1),
returning the broadcast size. -/
def bcast (a b : Nat) : Option Nat :=
  if a = b then some a else if a = 1 then some b else if b = 1 then some a else none

/-- Elementwise `+` with standard broadcasting over all four dimensions. -/
def addB (t1 t2 : Tensor4) : Option Tensor4 :=
  Option.bind (bcast t1.n t2.n) fun bn =>
  Option.bind (bcast t1.c t2.c) fun bc =>
  Option.bind (bcast t1.h t2.h) fun bh =>
  Option.bind (bcast t1.w t2.w) fun bw =>
  some { n := bn, c := bc, h := bh, w := bw,
         data := fun b ch i j =>
           t1.data (b % t1.n) (ch % t1.c) (i % t1.h) (j % t1.w) +
             t2.data (b % t2.n) (ch % t2.c) (i % t2.h) (j % t2.w) }

/-- Average pooling `nn.AvgPool2d(k)` (stride defaults to `k`, no padding): fails when the
kernel is 0 or larger than the input; each output cell is the mean of a
`k × k` window. -/
def avgpool (k : Nat) (t : Tensor4) : Option Tensor4 :=
  if 0 < k ∧ k ≤ t.h ∧ k ≤ t.w then
    some { n := t.n, c := t.c, h := (t.h - k) / k + 1, w := (t.w - k) / k + 1,
           data := fun b c i j =>
             (Finset.sum (Finset.range k) fun ki =>
               Finset.sum (Finset.range k) fun kj =>
                 t.data b c (i * k + ki) (j * k + kj)) / ((k : ℚ) * k) }
  else none

/-- Reshape `v.view(B, -1, 1, 1)` of a 2-D tensor `v`: fails when `B` is 0 or does
not divide the element count; the inferred channel dimension is
`numel / B` and the flat (row-major) order of elements is preserved. -/
def view4 (v : Tensor2) (B : Nat) : Option Tensor4 :=
  if 0 < B ∧ v.n * v.d % B = 0 then
    some { n := B, c := v.n * v.d / B, h := 1, w := 1,
           data := fun b c _ _ =>
             v.data ((b * (v.n * v.d / B) + c) / v.d) ((b * (v.n * v.d / B) + c) % v.d) }
  else none

/-! Model of TowerRepresentation.

Mirrors `TowerRepresentation.__init__`: the eight convolution layers with
the hard-coded kernel/stride/padding/channel schedule, holding the learned
weights and biases, plus the `pool` flag.
-/

structure TowerRepresentation where
  n_channels : Nat
  v_dim : Nat
  r_dim : Nat
  pool : Bool
  w1 : Nat → Nat → Nat → Nat → ℚ
  w2 : Nat → Nat → Nat → Nat → ℚ
  w3 : Nat → Nat → Nat → Nat → ℚ
  w4 : Nat → Nat → Nat → Nat → ℚ
  w5 : Nat → Nat → Nat → Nat → ℚ
  w6 : Nat → Nat → Nat → Nat → ℚ
  w7 : Nat → Nat → Nat → Nat → ℚ
  w8 : Nat → Nat → Nat → Nat → ℚ
  b1 : Nat → ℚ
  b2 : Nat → ℚ
  b3 : Nat → ℚ
  b4 : Nat → ℚ
  b5 : Nat → ℚ
  b6 : Nat → ℚ
  b7 : Nat → ℚ
  b8 : Nat → ℚ

def TowerRepresentation.conv1 (m : TowerRepresentation) : Conv2dP :=
  ⟨m.n_channels, m.r_dim, 2, 2, 0, m.w1, m.b1⟩

def TowerRepresentation.conv2 (m : TowerRepresentation) : Conv2dP :=
  ⟨m.r_dim, m.r_dim, 2, 2, 0, m.w2, m.b2⟩

def TowerRepresentation.conv3 (m : TowerRepresentation) : Conv2dP :=
  ⟨m.r_dim, m.r_dim / 2, 3, 1, 1, m.w3, m.b3⟩

def TowerRepresentation.conv4 (m : TowerRepresentation) : Conv2dP :=
  ⟨m.r_dim / 2, m.r_dim, 2, 2, 0, m.w4, m.b4⟩

def TowerRepresentation.conv5 (m : TowerRepresentation) : Conv2dP :=
  ⟨m.r_dim + m.v_dim, m.r_dim, 3, 1, 1, m.w5, m.b5⟩

def TowerRepresentation.conv6 (m : TowerRepresentation) : Conv2dP :=
  ⟨m.r_dim + m.v_dim, m.r_dim / 2, 3, 1, 1, m.w6, m.b6⟩

def TowerRepresentation.conv7 (m : TowerRepresentation) : Conv2dP :=
  ⟨m.r_dim / 2, m.r_dim, 3, 1, 1, m.w7, m.b7⟩

def TowerRepresentation.conv8 (m : TowerRepresentation) : Conv2dP :=
  ⟨m.r_dim, m.r_dim, 1, 1, 0, m.w8, m.b8⟩

/-- Lines 69-70 of the source: `v = v.view(v.size(0), -1, 1, 1)` followed by
`v = v.repeat(1, 1, self.r_dim // 16, self.r_dim // 16)`. -/
def TowerRepresentation.broadcastView (m : TowerRepresentation) (v : Tensor2) :
    Option Tensor4 :=
  Option.bind (view4 v v.n) fun v0 =>
    some (v0.repeatHW (m.r_dim / 16) (m.r_dim / 16))

/-- The method `TowerRepresentation.forward` (lines 67-91 of the source). -/
def TowerRepresentation.forward (m : TowerRepresentation) (x : Tensor4) (v : Tensor2) :
    Option Tensor4 :=
  Option.bind (m.broadcastView v) fun v4 =>
  Option.bind (m.conv1.apply x) fun s1 =>
  Option.bind (m.conv2.apply (relu s1)) fun s2 =>
  Option.bind (m.conv3.apply (relu s1)) fun t3 =>
  Option.bind (m.conv4.apply (relu t3)) fun t4 =>
  Option.bind (addB (relu t4) (relu s2)) fun x2 =>
  Option.bind (cat1 x2 v4) fun m2 =>
  Option.bind (m.conv5.apply m2) fun s5 =>
  Option.bind (m.conv6.apply m2) fun t6 =>
  Option.bind (m.conv7.apply (relu t6)) fun t7 =>
  Option.bind (addB (relu t7) (relu s5)) fun y =>
  Option.bind (m.conv8.apply y) fun r8 =>
  bif m.pool then avgpool (m.r_dim / 16) (relu r8) else some (relu r8)

/-- The skip branch of the first residual block of the tower
(`skip_out = F.relu(self.conv2(F.relu(self.conv1(x))))`). -/
def towerBlock1Skip (m : TowerRepresentation) (x : Tensor4) : Option Tensor4 :=
  Option.bind (m.conv1.apply x) fun s1 =>
  Option.map relu (m.conv2.apply (relu s1))

/-- The main branch of the first residual block of the tower
(`F.relu(self.conv4(F.relu(self.conv3(F.relu(self.conv1(x))))))`). -/
def towerBlock1Main (m : TowerRepresentation) (x : Tensor4) : Option Tensor4 :=
  Option.bind (m.conv1.apply x) fun s1 =>
  Option.bind (m.conv3.apply (relu s1)) fun t3 =>
  Option.map relu (m.conv4.apply (relu t3))

/-! Model of PyramidRepresentation.

Mirrors `PyramidRepresentation.__init__`: four convolutions with strides
2, 2, 2, 8 and channel schedule `r_dim/8 → r_dim/4 → r_dim/2 → r_dim`.
-/

structure PyramidRepresentation where
  n_channels : Nat
  v_dim : Nat
  r_dim : Nat
  w1 : Nat → Nat → Nat → Nat → ℚ
  w2 : Nat → Nat → Nat → Nat → ℚ
  w3 : Nat → Nat → Nat → Nat → ℚ
  w4 : Nat → Nat → Nat → Nat → ℚ
  b1 : Nat → ℚ
  b2 : Nat → ℚ
  b3 : Nat → ℚ
  b4 : Nat → ℚ

def PyramidRepresentation.conv1 (m : PyramidRepresentation) : Conv2dP :=
  ⟨m.n_channels + m.v_dim, m.r_dim / 8, 2, 2, 0, m.w1, m.b1⟩

def PyramidRepresentation.conv2 (m : PyramidRepresentation) : Conv2dP :=
  ⟨m.r_dim / 8, m.r_dim / 4, 2, 2, 0, m.w2, m.b2⟩

def PyramidRepresentation.conv3 (m : PyramidRepresentation) : Conv2dP :=
  ⟨m.r_dim / 4, m.r_dim / 2, 2, 2, 0, m.w3, m.b3⟩

def PyramidRepresentation.conv4 (m : PyramidRepresentation) : Conv2dP :=
  ⟨m.r_dim / 2, m.r_dim, 8, 8, 0, m.w4, m.b4⟩

/-- The method `PyramidRepresentation.forward` (lines 129-144 of the source): the
viewpoint is reshaped with the image batch size, tiled to the full input
spatial resolution, concatenated with the image, and passed through the
four conv+relu stages. -/
def PyramidRepresentation.forward (m : PyramidRepresentation) (x : Tensor4) (v : Tensor2) :
    Option Tensor4 :=
  Option.bind (view4 v x.n) fun v0 =>
  Option.bind (cat1 x (v0.repeatHW x.h x.w)) fun r0 =>
  Option.bind (m.conv1.apply r0) fun r1 =>
  Option.bind (m.conv2.apply (relu r1)) fun r2 =>
  Option.bind (m.conv3.apply (relu r2)) fun r3 =>
  Option.bind (m.conv4.apply (relu r3)) fun r4 =>
  some (relu r4)

/-- A conv+relu chain: apply each convolution in order, a rectified-linear
unit after each, with no residual additions and no pooling.  Used to state
the structural claim about the pyramid encoder. -/
def convReluChain : List Conv2dP → Tensor4 → Option Tensor4
  | [], t => some t
  | cp :: rest, t => Option.bind (cp.apply t) fun u => convReluChain rest (relu u)

/-! Concrete instances used as evaluation witnesses. -/

def zeroW : Nat → Nat → Nat → Nat → ℚ := fun _ _ _ _ => 0

def zeroB : Nat → ℚ := fun _ => 0

/-- Tower module with `n_channels=3, v_dim=7, r_dim=256, pool=True`. -/
def Mt64 : TowerRepresentation :=
  ⟨3, 7, 256, true, zeroW, zeroW, zeroW, zeroW, zeroW, zeroW, zeroW, zeroW,
   zeroB, zeroB, zeroB, zeroB, zeroB, zeroB, zeroB, zeroB⟩

/-- Tower module with `n_channels=3, v_dim=7, r_dim=256, pool=False`. -/
def Mt64f : TowerRepresentation :=
  ⟨3, 7, 256, false, zeroW, zeroW, zeroW, zeroW, zeroW, zeroW, zeroW, zeroW,
   zeroB, zeroB, zeroB, zeroB, zeroB, zeroB, zeroB, zeroB⟩

/-- A 64 × 64 three-channel image with batch size 1. -/
def X64 : Tensor4 := ⟨1, 3, 64, 64, fun _ _ _ _ => 0⟩

/-- A 7-dimensional viewpoint with batch size 1. -/
def V7 : Tensor2 := ⟨1, 7, fun _ _ => 0⟩

/-- Tower module with `r_dim = 24` (not divisible by 16), `pool=True`. -/
def Mt24 : TowerRepresentation :=
  ⟨1, 1, 24, true, zeroW, zeroW, zeroW, zeroW, zeroW, zeroW, zeroW, zeroW,
   zeroB, zeroB, zeroB, zeroB, zeroB, zeroB, zeroB, zeroB⟩

/-- Tower module with `r_dim = 16`, `pool=True`. -/
def Mt16 : TowerRepresentation :=
  ⟨1, 1, 16, true, zeroW, zeroW, zeroW, zeroW, zeroW, zeroW, zeroW, zeroW,
   zeroB, zeroB, zeroB, zeroB, zeroB, zeroB, zeroB, zeroB⟩

/-- A 4 × 4 one-channel image with batch size 1. -/
def X4 : Tensor4 := ⟨1, 1, 4, 4, fun _ _ _ _ => 0⟩

/-- A 2 × 2 one-channel image with batch size 1. -/
def X2 : Tensor4 := ⟨1, 1, 2, 2, fun _ _ _ _ => 0⟩

/-- An 8 × 8 one-channel image with batch size 1. -/
def X8 : Tensor4 := ⟨1, 1, 8, 8, fun _ _ _ _ => 0⟩

/-- A 1-dimensional viewpoint with batch size 1. -/
def V1 : Tensor2 := ⟨1, 1, fun _ _ => 0⟩

/-- Pyramid module with `n_channels=1, v_dim=1, r_dim=8`. -/
def Mp8 : PyramidRepresentation :=
  ⟨1, 1, 8, zeroW, zeroW, zeroW, zeroW, zeroB, zeroB, zeroB, zeroB⟩

/-- A 64 × 64 one-channel image with batch size 1. -/
def Xp64 : Tensor4 := ⟨1, 1, 64, 64, fun _ _ _ _ => 0⟩

/-- One output entry of a concrete tower forward pass. -/
def towerSample : ℚ := (Mt64.forward X64 V7).elim 0 fun r => r.data 0 0 0 0

/-- One output entry of a concrete pyramid forward pass. -/
def pyramidSample : ℚ := (Mp8.forward Xp64 V1).elim 0 fun r => r.data 0 0 0 0

/-! Basic lemmas about the embedded operations. -/

@[simp] theorem relu_n (t : Tensor4) : (relu t).n = t.n := rfl

@[simp] theorem relu_c (t : Tensor4) : (relu t).c = t.c := rfl

@[simp] theorem relu_h (t : Tensor4) : (relu t).h = t.h := rfl

@[simp] theorem relu_w (t : Tensor4) : (relu t).w = t.w := rfl

theorem relu_data (t : Tensor4) (b c i j : Nat) :
    (relu t).data b c i j = max 0 (t.data b c i j) := rfl

@[simp] theorem repeatHW_n (t : Tensor4) (a b : Nat) : (t.repeatHW a b).n = t.n := rfl

@[simp] theorem repeatHW_c (t : Tensor4) (a b : Nat) : (t.repeatHW a b).c = t.c := rfl

@[simp] theorem repeatHW_h (t : Tensor4) (a b : Nat) : (t.repeatHW a b).h = t.h * a := rfl

@[simp] theorem repeatHW_w (t : Tensor4) (a b : Nat) : (t.repeatHW a b).w = t.w * b := rfl

theorem repeatHW_data (t : Tensor4) (a b bb cc i j : Nat) :
    (t.repeatHW a b).data bb cc i j = t.data bb cc (i % t.h) (j % t.w) := rfl

theorem Conv2dP.apply_some {cp : Conv2dP} {t u : Tensor4} (h : cp.apply t = some u) :
    cp.k ≤ t.h + 2 * cp.padding ∧ cp.k ≤ t.w + 2 * cp.padding ∧ t.c = cp.inC ∧
      0 < cp.stride ∧ u.n = t.n ∧ u.c = cp.outC ∧
      u.h = (t.h + 2 * cp.padding - cp.k) / cp.stride + 1 ∧
      u.w = (t.w + 2 * cp.padding - cp.k) / cp.stride + 1 := by
  unfold Conv2dP.apply at h
  split_ifs at h with hg
  · obtain ⟨h1, h2, h3, h4⟩ := hg
    injection h with h
    subst h
    exact ⟨h1, h2, h3, h4, rfl, rfl, rfl, rfl⟩

theorem Conv2dP.apply_isSome {cp : Conv2dP} {t : Tensor4}
    (h1 : cp.k ≤ t.h + 2 * cp.padding) (h2 : cp.k ≤ t.w + 2 * cp.padding)
    (h3 : t.c = cp.inC) (h4 : 0 < cp.stride) : (cp.apply t).isSome := by
  unfold Conv2dP.apply
  rw [if_pos ⟨h1, h2, h3, h4⟩]
  rfl

theorem view4_some {v : Tensor2} {B : Nat} {u : Tensor4} (h : view4 v B = some u) :
    0 < B ∧ v.n * v.d % B = 0 ∧ u.n = B ∧ u.c = v.n * v.d / B ∧ u.h = 1 ∧ u.w = 1 ∧
      ∀ b c i j, u.data b c i j =
        v.data ((b * (v.n * v.d / B) + c) / v.d) ((b * (v.n * v.d / B) + c) % v.d) := by
  unfold view4 at h
  split_ifs at h with hg
  · injection h with h
    subst h
    exact ⟨hg.1, hg.2, rfl, rfl, rfl, rfl, fun _ _ _ _ => rfl⟩

theorem view4_isSome {v : Tensor2} {B : Nat} (h1 : 0 < B) (h2 : v.n * v.d % B = 0) :
    (view4 v B).isSome := by
  unfold view4
  rw [if_pos ⟨h1, h2⟩]
  rfl

theorem cat1_some {t1 t2 u : Tensor4} (h : cat1 t1 t2 = some u) :
    t1.n = t2.n ∧ t1.h = t2.h ∧ t1.w = t2.w ∧ u.n = t1.n ∧ u.c = t1.c + t2.c ∧
      u.h = t1.h ∧ u.w = t1.w := by
  unfold cat1 at h
  split_ifs at h with hg
  · injection h with h
    subst h
    exact ⟨hg.1, hg.2.1, hg.2.2, rfl, rfl, rfl, rfl⟩

theorem cat1_isSome {t1 t2 : Tensor4} (h1 : t1.n = t2.n) (h2 : t1.h = t2.h)
    (h3 : t1.w = t2.w) : (cat1 t1 t2).isSome := by
  unfold cat1
  rw [if_pos ⟨h1, h2, h3⟩]
  rfl

theorem bcast_self (a : Nat) : bcast a a = some a := by
  unfold bcast
  simp

theorem bcast_eq {a c : Nat} (h : bcast a a = some c) : c = a := by
  rw [bcast_self] at h
  injection h with h
  exact h.symm

theorem addB_some {t1 t2 u : Tensor4} (h : addB t1 t2 = some u) :
    bcast t1.n t2.n = some u.n ∧ bcast t1.c t2.c = some u.c ∧
      bcast t1.h t2.h = some u.h ∧ bcast t1.w t2.w = some u.w := by
  unfold addB at h
  obtain ⟨bn, hbn, h⟩ := Option.bind_eq_some.mp h
  obtain ⟨bc, hbc, h⟩ := Option.bind_eq_some.mp h
  obtain ⟨bh, hbh, h⟩ := Option.bind_eq_some.mp h
  obtain ⟨bw, hbw, h⟩ := Option.bind_eq_some.mp h
  injection h with h
  subst h
  exact ⟨hbn, hbc, hbh, hbw⟩

theorem addB_isSome {t1 t2 : Tensor4} (hn : t1.n = t2.n) (hc : t1.c = t2.c)
    (hh : t1.h = t2.h) (hw : t1.w = t2.w) : (addB t1 t2).isSome := by
  unfold addB
  simp [hn, hc, hh, hw, bcast_self]

theorem avgpool_some {k : Nat} {t u : Tensor4} (h : avgpool k t = some u) :
    0 < k ∧ k ≤ t.h ∧ k ≤ t.w ∧ u.n = t.n ∧ u.c = t.c ∧
      u.h = (t.h - k) / k + 1 ∧ u.w = (t.w - k) / k + 1 ∧
      ∀ b c i j, u.data b c i j =
        (Finset.sum (Finset.range k) fun ki =>
          Finset.sum (Finset.range k) fun kj =>
            t.data b c (i * k + ki) (j * k + kj)) / ((k : ℚ) * k) := by
  unfold avgpool at h
  split_ifs at h with hg
  · injection h with h
    subst h
    exact ⟨hg.1, hg.2.1, hg.2.2, rfl, rfl, rfl, rfl, fun _ _ _ _ => rfl⟩

theorem avgpool_isSome {k : Nat} {t : Tensor4} (h1 : 0 < k) (h2 : k ≤ t.h)
    (h3 : k ≤ t.w) : (avgpool k t).isSome := by
  unfold avgpool
  rw [if_pos ⟨h1, h2, h3⟩]
  rfl

theorem div_step {a s : Nat} (hs : 0 < s) (h : s ≤ a) : (a - s) / s + 1 = a / s :=
  (Nat.div_eq_sub_div hs h).symm

set_option maxHeartbeats 1000000 in
/-- Master shape lemma for a successful tower forward pass: the batch is
preserved, the channel depth is `r_dim`, the input spatial extent is at
least 4, the block-1 spatial extent `H/4` (resp. `W/4`) necessarily equals
the viewpoint broadcast extent `r_dim/16`, the output spatial extent is
`H/4 × W/4` without pooling and `1 × 1` with pooling, and the result is a
rectified-linear output (or an average pooling of one). -/
theorem tower_forward_shape {m : TowerRepresentation} {x : Tensor4} {v : Tensor2}
    {r : Tensor4} (h : m.forward x v = some r) :
    r.n = x.n ∧ r.c = m.r_dim ∧ 4 ≤ x.h ∧ 4 ≤ x.w ∧
      x.h / 4 = m.r_dim / 16 ∧ x.w / 4 = m.r_dim / 16 ∧
      (m.pool = false → r.h = x.h / 4 ∧ r.w = x.w / 4) ∧
      (m.pool = true → r.h = 1 ∧ r.w = 1) ∧
      ∃ t, (m.pool = true ∧ avgpool (m.r_dim / 16) (relu t) = some r) ∨
        (m.pool = false ∧ r = relu t) := by
  unfold TowerRepresentation.forward at h
  rw [Option.bind_eq_some] at h
  obtain ⟨v4, hv4, h⟩ := h
  rw [Option.bind_eq_some] at h
  obtain ⟨s1, hs1, h⟩ := h
  rw [Option.bind_eq_some] at h
  obtain ⟨s2, hs2, h⟩ := h
  rw [Option.bind_eq_some] at h
  obtain ⟨t3, ht3, h⟩ := h
  rw [Option.bind_eq_some] at h
  obtain ⟨t4, ht4, h⟩ := h
  rw [Option.bind_eq_some] at h
  obtain ⟨x2, hx2, h⟩ := h
  rw [Option.bind_eq_some] at h
  obtain ⟨m2, hm2, h⟩ := h
  rw [Option.bind_eq_some] at h
  obtain ⟨s5, hs5, h⟩ := h
  rw [Option.bind_eq_some] at h
  obtain ⟨t6, ht6, h⟩ := h
  rw [Option.bind_eq_some] at h
  obtain ⟨t7, ht7, h⟩ := h
  rw [Option.bind_eq_some] at h
  obtain ⟨y, hy, h⟩ := h
  rw [Option.bind_eq_some] at h
  obtain ⟨r8, hr8, h⟩ := h
  unfold TowerRepresentation.broadcastView at hv4
  rw [Option.bind_eq_some] at hv4
  obtain ⟨v0, hv0, hv4⟩ := hv4
  injection hv4 with hv4
  subst hv4
  obtain ⟨hB, hmod, hv0n, hv0c, hv0h, hv0w, -⟩ := view4_some hv0
  obtain ⟨hg1h, hg1w, hg1c, -, hs1n, hs1c, hs1h, hs1w⟩ := Conv2dP.apply_some hs1
  obtain ⟨hg2h, hg2w, hg2c, -, hs2n, hs2c, hs2h, hs2w⟩ := Conv2dP.apply_some hs2
  obtain ⟨hg3h, hg3w, hg3c, -, ht3n, ht3c, ht3h, ht3w⟩ := Conv2dP.apply_some ht3
  obtain ⟨hg4h, hg4w, hg4c, -, ht4n, ht4c, ht4h, ht4w⟩ := Conv2dP.apply_some ht4
  obtain ⟨hbn, hbc, hbh, hbw⟩ := addB_some hx2
  obtain ⟨hcn, hch, hcw, hm2n, hm2c, hm2h, hm2w⟩ := cat1_some hm2
  obtain ⟨hg5h, hg5w, hg5c, -, hs5n, hs5c, hs5h, hs5w⟩ := Conv2dP.apply_some hs5
  obtain ⟨hg6h, hg6w, hg6c, -, ht6n, ht6c, ht6h, ht6w⟩ := Conv2dP.apply_some ht6
  obtain ⟨hg7h, hg7w, hg7c, -, ht7n, ht7c, ht7h, ht7w⟩ := Conv2dP.apply_some ht7
  obtain ⟨hyn, hyc, hyh, hyw⟩ := addB_some hy
  obtain ⟨hg8h, hg8w, hg8c, -, hr8n, hr8c, hr8h, hr8w⟩ := Conv2dP.apply_some hr8
  simp only [TowerRepresentation.conv1, TowerRepresentation.conv2,
    TowerRepresentation.conv3, TowerRepresentation.conv4, TowerRepresentation.conv5,
    TowerRepresentation.conv6, TowerRepresentation.conv7, TowerRepresentation.conv8,
    relu_n, relu_c, relu_h, relu_w, repeatHW_n, repeatHW_c, repeatHW_h, repeatHW_w,
    Nat.mul_zero, Nat.add_zero, Nat.div_one, Nat.one_mul] at hg1h hg1w hg1c hs1n hs1c hs1h hs1w hg2h hg2w hg2c hs2n hs2c hs2h hs2w hg3h hg3w hg3c ht3n ht3c ht3h ht3w hg4h hg4w hg4c ht4n ht4c ht4h ht4w hbn hbc hbh hbw hcn hch hcw hm2n hm2c hm2h hm2w hg5h hg5w hg5c hs5n hs5c hs5h hs5w hg6h hg6w hg6c ht6n ht6c ht6h ht6w hg7h hg7w hg7c ht7n ht7c ht7h ht7w hyn hyc hyh hyw hg8h hg8w hg8c hr8n hr8c hr8h hr8w
  clear hB hmod hv0c hv0n hv0 hs1 hs2 ht3 ht4 hx2 hm2 hs5 ht6 ht7 hy hr8
  clear hg1c hg2c hg3c hg4c hg5c hg6c hg7c hg8c hcn hm2c hbc hs2c ht3c ht4c
  clear hs1c hs5c ht6c ht7c hyc
  -- spatial sizes of the first block
  rw [div_step (by omega) hg1h] at hs1h
  rw [div_step (by omega) hg1w] at hs1w
  rw [hs1h] at hs2h hg2h ht3h hg3h
  rw [hs1w] at hs2w hg2w ht3w hg3w
  rw [div_step (by omega) hg2h] at hs2h
  rw [div_step (by omega) hg2w] at hs2w
  have ht3h2 : t3.h = x.h / 2 := by omega
  have ht3w2 : t3.w = x.w / 2 := by omega
  rw [ht3h2] at ht4h hg4h
  rw [ht3w2] at ht4w hg4w
  rw [div_step (by omega) hg4h] at ht4h
  rw [div_step (by omega) hg4w] at ht4w
  rw [Nat.div_div_eq_div_mul] at hs2h hs2w ht4h ht4w
  norm_num at hs2h hs2w ht4h ht4w
  -- residual addition of block 1
  rw [ht4n, ht3n, hs2n, hs1n] at hbn
  rw [ht4h, hs2h] at hbh
  rw [ht4w, hs2w] at hbw
  have hx2n : x2.n = x.n := bcast_eq hbn
  have hx2h : x2.h = x.h / 4 := bcast_eq hbh
  have hx2w : x2.w = x.w / 4 := bcast_eq hbw
  -- concatenation with the broadcast viewpoint
  rw [hx2h, hv0h, Nat.one_mul] at hch
  rw [hx2w, hv0w, Nat.one_mul] at hcw
  rw [hx2h] at hm2h
  rw [hx2w] at hm2w
  rw [hx2n] at hm2n
  -- input extent bounds
  have hx4h : 4 ≤ x.h := by
    have := (Nat.le_div_iff_mul_le (by omega : 0 < 2)).mp hg2h
    omega
  have hx4w : 4 ≤ x.w := by
    have := (Nat.le_div_iff_mul_le (by omega : 0 < 2)).mp hg2w
    omega
  clear hg1h hg1w hg2h hg2w hg3h hg3w hg4h hg4w hs1h hs1w hs2h hs2w
  clear ht3h ht3w ht3h2 ht3w2 ht4h ht4w hbn hbh hbw hs1n hs2n ht3n ht4n
  clear hx2h hx2w hx2n hv0h hv0w
  -- the second block and final convolution preserve spatial extent
  have hs5h2 : s5.h = x.h / 4 := by omega
  have hs5w2 : s5.w = x.w / 4 := by omega
  have ht6h2 : t6.h = x.h / 4 := by omega
  have ht6w2 : t6.w = x.w / 4 := by omega
  have ht7h2 : t7.h = x.h / 4 := by omega
  have ht7w2 : t7.w = x.w / 4 := by omega
  rw [ht7n, ht6n, hs5n, hm2n] at hyn
  rw [ht7h2, hs5h2] at hyh
  rw [ht7w2, hs5w2] at hyw
  have hyn2 : y.n = x.n := bcast_eq hyn
  have hyh2 : y.h = x.h / 4 := bcast_eq hyh
  have hyw2 : y.w = x.w / 4 := bcast_eq hyw
  clear hg5h hg5w hg6h hg6w hg7h hg7w hs5h hs5w ht6h ht6w ht7h ht7w
  clear hs5n ht6n ht7n hyn hyh hyw hm2h hm2w hm2n hs5h2 hs5w2 ht6h2 ht6w2 ht7h2 ht7w2
  have hr8h2 : r8.h = x.h / 4 := by omega
  have hr8w2 : r8.w = x.w / 4 := by omega
  have hr8n2 : r8.n = x.n := by omega
  -- case split on the pooling flag
  cases hp : m.pool with
  | false =>
    rw [hp] at h
    simp only [Bool.cond_false] at h
    injection h with h
    subst h
    simp only [relu_n, relu_c, relu_h, relu_w]
    refine ⟨by omega, hr8c, hx4h, hx4w, hch, hcw, fun _ => ⟨by omega, by omega⟩,
      fun hc => Bool.noConfusion hc, r8, Or.inr ⟨trivial, rfl⟩⟩
  | true =>
    rw [hp] at h
    simp only [Bool.cond_true] at h
    obtain ⟨hk, hkh, hkw, hrn, hrc, hrh, hrw, -⟩ := avgpool_some h
    simp only [relu_n, relu_c, relu_h, relu_w] at hk hkh hkw hrn hrc hrh hrw
    have hrh2 : r.h = 1 := by
      rw [hrh, hr8h2, hch, Nat.sub_self, Nat.zero_div]
    have hrw2 : r.w = 1 := by
      rw [hrw, hr8w2, hcw, Nat.sub_self, Nat.zero_div]
    refine ⟨by omega, by omega, hx4h, hx4w, hch, hcw, fun hc => Bool.noConfusion hc,
      fun _ => ⟨hrh2, hrw2⟩, r8, Or.inl ⟨rfl, h⟩⟩

/-- Master shape lemma for a successful pyramid forward pass: the batch is
preserved, the channel depth is `r_dim`, the output spatial extent is the
input extent divided by 64 = 2·2·2·8 (the product of the four strides),
the input spatial extent is at least 64, and the result is a
rectified-linear output. -/
theorem pyramid_forward_shape {m : PyramidRepresentation} {x : Tensor4} {v : Tensor2}
    {r : Tensor4} (h : m.forward x v = some r) :
    r.n = x.n ∧ r.c = m.r_dim ∧ r.h = x.h / 64 ∧ r.w = x.w / 64 ∧
      64 ≤ x.h ∧ 64 ≤ x.w ∧ ∃ t, r = relu t := by
  unfold PyramidRepresentation.forward at h
  rw [Option.bind_eq_some] at h
  obtain ⟨v0, hv0, h⟩ := h
  rw [Option.bind_eq_some] at h
  obtain ⟨r0, hr0, h⟩ := h
  rw [Option.bind_eq_some] at h
  obtain ⟨r1, hr1, h⟩ := h
  rw [Option.bind_eq_some] at h
  obtain ⟨r2, hr2, h⟩ := h
  rw [Option.bind_eq_some] at h
  obtain ⟨r3, hr3, h⟩ := h
  rw [Option.bind_eq_some] at h
  obtain ⟨r4, hr4, h⟩ := h
  injection h with h
  subst h
  obtain ⟨hB, hmod, hv0n, hv0c, hv0h, hv0w, -⟩ := view4_some hv0
  obtain ⟨hcn, hchh, hcww, hr0n, hr0c, hr0h, hr0w⟩ := cat1_some hr0
  obtain ⟨hg1h, hg1w, hg1c, -, hr1n, hr1c, hr1h, hr1w⟩ := Conv2dP.apply_some hr1
  obtain ⟨hg2h, hg2w, hg2c, -, hr2n, hr2c, hr2h, hr2w⟩ := Conv2dP.apply_some hr2
  obtain ⟨hg3h, hg3w, hg3c, -, hr3n, hr3c, hr3h, hr3w⟩ := Conv2dP.apply_some hr3
  obtain ⟨hg4h, hg4w, hg4c, -, hr4n, hr4c, hr4h, hr4w⟩ := Conv2dP.apply_some hr4
  simp only [PyramidRepresentation.conv1, PyramidRepresentation.conv2,
    PyramidRepresentation.conv3, PyramidRepresentation.conv4,
    relu_n, relu_c, relu_h, relu_w,
    Nat.mul_zero, Nat.add_zero, Nat.div_one, Nat.one_mul] at hg1h hg1w hg1c hr1n hr1c hr1h hr1w hg2h hg2w hg2c hr2n hr2c hr2h hr2w hg3h hg3w hg3c hr3n hr3c hr3h hr3w hg4h hg4w hg4c hr4n hr4c hr4h hr4w
  clear hB hmod hv0c hv0n hv0h hv0w hv0 hr0 hr1 hr2 hr3 hr4
  clear hg1c hg2c hg3c hg4c hr1c hr2c hr3c hcn hchh hcww hr0c
  rw [hr0h] at hg1h hr1h
  rw [hr0w] at hg1w hr1w
  rw [div_step (by omega) hg1h] at hr1h
  rw [div_step (by omega) hg1w] at hr1w
  rw [hr1h] at hg2h hr2h
  rw [hr1w] at hg2w hr2w
  rw [div_step (by omega) hg2h] at hr2h
  rw [div_step (by omega) hg2w] at hr2w
  rw [Nat.div_div_eq_div_mul] at hr2h hr2w
  norm_num at hr2h hr2w
  rw [hr2h] at hg3h hr3h
  rw [hr2w] at hg3w hr3w
  rw [div_step (by omega) hg3h] at hr3h
  rw [div_step (by omega) hg3w] at hr3w
  rw [Nat.div_div_eq_div_mul] at hr3h hr3w
  norm_num at hr3h hr3w
  rw [hr3h] at hg4h hr4h
  rw [hr3w] at hg4w hr4w
  rw [div_step (by omega) hg4h] at hr4h
  rw [div_step (by omega) hg4w] at hr4w
  rw [Nat.div_div_eq_div_mul] at hr4h hr4w
  norm_num at hr4h hr4w
  have hx64h : 64 ≤ x.h := by
    have := (Nat.le_div_iff_mul_le (by omega : 0 < 8)).mp hg4h
    omega
  have hx64w : 64 ≤ x.w := by
    have := (Nat.le_div_iff_mul_le (by omega : 0 < 8)).mp hg4w
    omega
  simp only [relu_n, relu_c, relu_h, relu_w]
  exact ⟨by omega, hr4c, hr4h, hr4w, hx64h, hx64w, r4, rfl⟩


/-! Further helper lemmas. -/

theorem obind_some {α β : Type} (a : α) (f : α → Option β) :
    Option.bind (some a) f = f a := rfl

theorem omap_some {α β : Type} (a : α) (f : α → β) :
    Option.map f (some a) = some (f a) := rfl

theorem broadcastView_some {m : TowerRepresentation} {v : Tensor2} {v4 : Tensor4}
    (h : m.broadcastView v = some v4) :
    0 < v.n ∧ v4.n = v.n ∧ v4.c = v.d ∧ v4.h = m.r_dim / 16 ∧ v4.w = m.r_dim / 16 := by
  unfold TowerRepresentation.broadcastView at h
  rw [Option.bind_eq_some] at h
  obtain ⟨v0, hv0, h⟩ := h
  injection h with h
  subst h
  obtain ⟨hB, hmod, hn, hc, hh, hw, -⟩ := view4_some hv0
  refine ⟨hB, by simp [hn], ?_, by simp [hh], by simp [hw]⟩
  simp only [repeatHW_c]
  rw [hc]
  exact Nat.mul_div_cancel_left v.d hB

theorem relu_nonneg (t : Tensor4) (b c i j : Nat) : 0 ≤ (relu t).data b c i j :=
  le_max_left 0 _

theorem avgpool_nonneg {k : Nat} {t u : Tensor4} (h : avgpool k t = some u)
    (ht : ∀ b c i j, 0 ≤ t.data b c i j) : ∀ b c i j, 0 ≤ u.data b c i j := by
  intro b c i j
  obtain ⟨-, -, -, -, -, -, -, hdata⟩ := avgpool_some h
  rw [hdata]
  apply div_nonneg
  · apply Finset.sum_nonneg
    intro ki _
    apply Finset.sum_nonneg
    intro kj _
    exact ht _ _ _ _
  · exact mul_nonneg (Nat.cast_nonneg k) (Nat.cast_nonneg k)

/-! Claim theorems. -/

/-- C1 counterexample: with `n_channels=1, v_dim=1, r_dim=8` and a 64 × 64
input, the pyramid forward pass runs without shape error, yet its output
spatial extent is 64/64 = 1, not 64/32 = 2 as the claim states: the product
of the four strides 2, 2, 2, 8 is 64, not 32. -/
theorem pyramid_spatial_not_div32 :
    (Mp8.forward Xp64 V1).map Tensor4.h = some (Xp64.h / 64) ∧
      (Mp8.forward Xp64 V1).map Tensor4.h ≠ some (Xp64.h / 32) := by
  constructor
  · rfl
  · intro hc
    exact absurd hc (by decide)

/-- C1 (amended): for every input on which `PyramidRepresentation.forward`
runs without shape error, the output spatial dimensions are H/64 and W/64,
the quotient of the input spatial dimensions by the product
2·2·2·8 = 64 of the four convolution strides. -/
theorem pyramid_output_spatial :
    ∀ (m : PyramidRepresentation) (x : Tensor4) (v : Tensor2) (r : Tensor4),
      m.forward x v = some r → r.h = x.h / 64 ∧ r.w = x.w / 64 := by
  intro m x v r h
  obtain ⟨-, -, hh, hw, -⟩ := pyramid_forward_shape h
  exact ⟨hh, hw⟩

/-- C1 witness: the amended theorem evaluated on the concrete pyramid run. -/
theorem pyramid_output_spatial_witness :
    (Mp8.forward Xp64 V1).map Tensor4.h = some (Xp64.h / 64) ∧
      (Mp8.forward Xp64 V1).map Tensor4.w = some (Xp64.w / 64) := by
  have hs : (Mp8.forward Xp64 V1).isSome := by rfl
  obtain ⟨r, hr⟩ := Option.isSome_iff_exists.mp hs
  have hsp := pyramid_output_spatial Mp8 Xp64 V1 r hr
  rw [hr]
  exact ⟨congrArg some hsp.1, congrArg some hsp.2⟩

/-- C2: TowerRepresentation with `n_channels=3, v_dim=7, r_dim=256` on a
(1,3,64,64) image and a (1,7) viewpoint yields shape (1,256,1,1) with
`pool=True` and (1,256,16,16) with `pool=False`. -/
theorem tower_concrete_shapes :
    (Mt64.forward X64 V7).map Tensor4.shape = some (1, 256, 1, 1) ∧
      (Mt64f.forward X64 V7).map Tensor4.shape = some (1, 256, 16, 16) :=
  ⟨rfl, rfl⟩

/-- C3 counterexample: `r_dim = 24` is not divisible by 16, yet the tower
module constructed with it runs `forward` on a 4 × 4 input without any
error (the broadcast extent 24/16 = 1 matches the block-1 extent 4/4). -/
theorem tower_rdim24_succeeds :
    Mt24.r_dim % 16 ≠ 0 ∧ (Mt24.forward X4 V1).isSome = true :=
  ⟨by decide, rfl⟩

/-- C3 (amended): what actually forces an error is not indivisibility of
`r_dim` by 16: `forward` fails whenever the viewpoint broadcast extent
`r_dim/16` differs from the block-1 output extent H/4 (or W/4). -/
theorem tower_spatial_mismatch_errors :
    ∀ (m : TowerRepresentation) (x : Tensor4) (v : Tensor2),
      x.h / 4 ≠ m.r_dim / 16 ∨ x.w / 4 ≠ m.r_dim / 16 → m.forward x v = none := by
  intro m x v hne
  cases hF : m.forward x v with
  | none => rfl
  | some r =>
    obtain ⟨-, -, -, -, hH, hW, -⟩ := tower_forward_shape hF
    cases hne with
    | inl h1 => exact absurd hH h1
    | inr h2 => exact absurd hW h2

/-- C3 witness: with `r_dim = 24` and an 8 × 8 input the extents 8/4 = 2 and
24/16 = 1 differ, and the amended theorem yields the error. -/
theorem tower_spatial_mismatch_errors_witness : Mt24.forward X8 V1 = none :=
  tower_spatial_mismatch_errors Mt24 X8 V1 (Or.inl (by decide))

/-- C4: both forward passes preserve the batch dimension: for every batch
size B ≥ 1 and input image and viewpoint with batch dimension B, a
successful output has batch dimension exactly B. -/
theorem batch_dim_preserved :
    ∀ (B : Nat), 1 ≤ B →
      ∀ (mt : TowerRepresentation) (mp : PyramidRepresentation) (x : Tensor4) (v : Tensor2),
        x.n = B → v.n = B →
        (∀ r, mt.forward x v = some r → r.n = B) ∧
        (∀ r, mp.forward x v = some r → r.n = B) := by
  intro B hB mt mp x v hx hv
  constructor
  · intro r hr
    rw [← hx]
    exact (tower_forward_shape hr).1
  · intro r hr
    rw [← hx]
    exact (pyramid_forward_shape hr).1

/-- C4 witness: batch preservation evaluated on the two concrete runs. -/
theorem batch_dim_preserved_witness :
    (Mt64.forward X64 V7).map Tensor4.n = some 1 ∧
      (Mp8.forward Xp64 V1).map Tensor4.n = some 1 := by
  constructor
  · have hs : (Mt64.forward X64 V7).isSome := by rfl
    obtain ⟨r, hr⟩ := Option.isSome_iff_exists.mp hs
    rw [hr]
    exact congrArg some ((batch_dim_preserved 1 (by decide) Mt64 Mp8 X64 V7 rfl rfl).1 r hr)
  · have hs : (Mp8.forward Xp64 V1).isSome := by rfl
    obtain ⟨r, hr⟩ := Option.isSome_iff_exists.mp hs
    rw [hr]
    exact congrArg some ((batch_dim_preserved 1 (by decide) Mt64 Mp8 Xp64 V1 rfl rfl).2 r hr)

/-- C5: with `pool=False`, a successful tower forward pass has output
spatial dimensions exactly H/4 and W/4, and they are strictly positive. -/
theorem tower_unpooled_spatial :
    ∀ (m : TowerRepresentation) (x : Tensor4) (v : Tensor2) (r : Tensor4),
      m.pool = false → m.forward x v = some r →
      r.h = x.h / 4 ∧ r.w = x.w / 4 ∧ 0 < r.h ∧ 0 < r.w := by
  intro m x v r hp h
  obtain ⟨-, -, h4h, h4w, -, -, hpf, -, -⟩ := tower_forward_shape h
  obtain ⟨hh, hw⟩ := hpf hp
  refine ⟨hh, hw, ?_, ?_⟩
  · rw [hh]
    exact Nat.div_pos h4h (by omega)
  · rw [hw]
    exact Nat.div_pos h4w (by omega)

/-- C5 witness: the unpooled tower run on the 64 × 64 image has spatial
extent 16 = 64/4. -/
theorem tower_unpooled_spatial_witness :
    (Mt64f.forward X64 V7).map Tensor4.h = some (X64.h / 4) ∧
      (Mt64f.forward X64 V7).map Tensor4.w = some (X64.w / 4) := by
  have hs : (Mt64f.forward X64 V7).isSome := by rfl
  obtain ⟨r, hr⟩ := Option.isSome_iff_exists.mp hs
  have hsp := tower_unpooled_spatial Mt64f X64 V7 r rfl hr
  rw [hr]
  exact ⟨congrArg some hsp.1, congrArg some hsp.2.1⟩

/-- C6: the pyramid forward pass is exactly the four-convolution chain with
strides 2, 2, 2, 8 and channel depths r_dim/8, r_dim/4, r_dim/2, r_dim, a
rectified-linear unit after each convolution, and (by the shape of
`convReluChain`) no residual addition and no pooling step. -/
theorem pyramid_is_conv_relu_chain :
    ∀ (m : PyramidRepresentation) (x : Tensor4) (v : Tensor2),
      m.forward x v =
        Option.bind (view4 v x.n) (fun v0 =>
          Option.bind (cat1 x (v0.repeatHW x.h x.w)) fun r0 =>
            convReluChain [m.conv1, m.conv2, m.conv3, m.conv4] r0) ∧
      [m.conv1.stride, m.conv2.stride, m.conv3.stride, m.conv4.stride] = [2, 2, 2, 8] ∧
      [m.conv1.outC, m.conv2.outC, m.conv3.outC, m.conv4.outC] =
        [m.r_dim / 8, m.r_dim / 4, m.r_dim / 2, m.r_dim] := by
  intro m x v
  exact ⟨rfl, rfl, rfl⟩

/-- C7: in the tower forward pass the viewpoint is reshaped to
(B, v_dim, 1, 1) and then broadcast by pure replication to
(B, v_dim, r_dim/16, r_dim/16): every spatial position of the broadcast
tensor holds exactly the original viewpoint entry of its batch and
channel index. -/
theorem tower_viewpoint_broadcast :
    ∀ (m : TowerRepresentation) (v : Tensor2) (v4 : Tensor4),
      m.broadcastView v = some v4 →
      (view4 v v.n).map Tensor4.shape = some (v.n, v.d, 1, 1) ∧
      v4.shape = (v.n, v.d, m.r_dim / 16, m.r_dim / 16) ∧
      ∀ b c i j, b < v.n → c < v.d → v4.data b c i j = v.data b c := by
  intro m v v4 h
  unfold TowerRepresentation.broadcastView at h
  rw [Option.bind_eq_some] at h
  obtain ⟨v0, hv0, h⟩ := h
  injection h with h
  subst h
  obtain ⟨hB, hmod, hv0n, hv0c, hv0h, hv0w, hdata⟩ := view4_some hv0
  have hd : v.n * v.d / v.n = v.d := Nat.mul_div_cancel_left v.d hB
  refine ⟨?_, ?_, ?_⟩
  · rw [hv0]
    show some v0.shape = some (v.n, v.d, 1, 1)
    unfold Tensor4.shape
    rw [hv0n, hv0c, hv0h, hv0w, hd]
  · unfold Tensor4.shape
    simp only [repeatHW_n, repeatHW_c, repeatHW_h, repeatHW_w]
    rw [hv0n, hv0c, hv0h, hv0w, hd, Nat.one_mul]
  · intro b c i j hb hc
    have hdpos : 0 < v.d := by omega
    rw [repeatHW_data, hv0h, hv0w]
    simp only [Nat.mod_one]
    rw [hdata, hd]
    congr 1
    · rw [Nat.mul_comm b v.d, Nat.mul_add_div hdpos, Nat.div_eq_of_lt hc, Nat.add_zero]
    · rw [Nat.mul_comm b v.d, Nat.mul_add_mod, Nat.mod_eq_of_lt hc]

/-- C7 witness: the broadcast of the concrete (1,7) viewpoint has shape
(1, 7, 16, 16). -/
theorem tower_viewpoint_broadcast_witness :
    (Mt64.broadcastView V7).map Tensor4.shape = some (1, 7, 16, 16) := by
  have hs : (Mt64.broadcastView V7).isSome := by rfl
  obtain ⟨v4, hv4⟩ := Option.isSome_iff_exists.mp hs
  have hsp := tower_viewpoint_broadcast Mt64 V7 v4 hv4
  rw [hv4]
  exact congrArg some hsp.2.1

/-- C8: both forward passes are pure functions: identical module parameters,
identical image and identical viewpoint give identical outputs. -/
theorem forward_deterministic :
    (∀ (m1 m2 : TowerRepresentation) (x1 x2 : Tensor4) (v1 v2 : Tensor2),
      m1 = m2 → x1 = x2 → v1 = v2 → m1.forward x1 v1 = m2.forward x2 v2) ∧
    (∀ (m1 m2 : PyramidRepresentation) (x1 x2 : Tensor4) (v1 v2 : Tensor2),
      m1 = m2 → x1 = x2 → v1 = v2 → m1.forward x1 v1 = m2.forward x2 v2) := by
  constructor
  · intro m1 m2 x1 x2 v1 v2 h1 h2 h3
    subst h1
    subst h2
    subst h3
    rfl
  · intro m1 m2 x1 x2 v1 v2 h1 h2 h3
    subst h1
    subst h2
    subst h3
    rfl

/-- C8 witness: determinism applied to the two concrete runs. -/
theorem forward_deterministic_witness :
    Mt64.forward X64 V7 = Mt64.forward X64 V7 ∧
      Mp8.forward Xp64 V1 = Mp8.forward Xp64 V1 :=
  ⟨forward_deterministic.1 Mt64 Mt64 X64 X64 V7 V7 rfl rfl rfl,
   forward_deterministic.2 Mp8 Mp8 Xp64 Xp64 V1 V1 rfl rfl rfl⟩

/-- C9: every entry of a successful forward output is non-negative, for both
modules: the last step is a rectified-linear unit, or an average pooling of
a rectified-linear output. -/
theorem outputs_nonneg :
    (∀ (m : TowerRepresentation) (x : Tensor4) (v : Tensor2) (r : Tensor4),
      m.forward x v = some r → ∀ b c i j, 0 ≤ r.data b c i j) ∧
    (∀ (m : PyramidRepresentation) (x : Tensor4) (v : Tensor2) (r : Tensor4),
      m.forward x v = some r → ∀ b c i j, 0 ≤ r.data b c i j) := by
  constructor
  · intro m x v r h
    obtain ⟨-, -, -, -, -, -, -, -, t, hcase⟩ := tower_forward_shape h
    cases hcase with
    | inl hpool => exact avgpool_nonneg hpool.2 fun b c i j => relu_nonneg t b c i j
    | inr hnop =>
      intro b c i j
      rw [hnop.2]
      exact relu_nonneg t b c i j
  · intro m x v r h
    obtain ⟨-, -, -, -, -, -, t, ht⟩ := pyramid_forward_shape h
    intro b c i j
    rw [ht]
    exact relu_nonneg t b c i j

/-- C9 witness: one concrete output entry of each module is non-negative. -/
theorem outputs_nonneg_witness : 0 ≤ towerSample ∧ 0 ≤ pyramidSample := by
  constructor
  · unfold towerSample
    have hs : (Mt64.forward X64 V7).isSome := by rfl
    obtain ⟨r, hr⟩ := Option.isSome_iff_exists.mp hs
    rw [hr]
    exact outputs_nonneg.1 Mt64 X64 V7 r hr 0 0 0 0
  · unfold pyramidSample
    have hs : (Mp8.forward Xp64 V1).isSome := by rfl
    obtain ⟨r, hr⟩ := Option.isSome_iff_exists.mp hs
    rw [hr]
    exact outputs_nonneg.2 Mp8 Xp64 V1 r hr 0 0 0 0

/-- Both branches of the first residual block of the tower succeed on any
input with matching channels and spatial extent at least 4, and both
produce shape (B, r_dim, H/4, W/4) — so their elementwise sum is always
shape-consistent. -/
theorem tower_block1_shape {m : TowerRepresentation} {x : Tensor4}
    (hc : x.c = m.n_channels) (h4h : 4 ≤ x.h) (h4w : 4 ≤ x.w) :
    (towerBlock1Skip m x).map Tensor4.shape = some (x.n, m.r_dim, x.h / 4, x.w / 4) ∧
      (towerBlock1Main m x).map Tensor4.shape = some (x.n, m.r_dim, x.h / 4, x.w / 4) := by
  have hs1e : (m.conv1.apply x).isSome := by
    apply Conv2dP.apply_isSome <;> simp only [TowerRepresentation.conv1] <;> omega
  obtain ⟨s1, hs1⟩ := Option.isSome_iff_exists.mp hs1e
  obtain ⟨-, -, -, -, hs1n, hs1c, hs1h, hs1w⟩ := Conv2dP.apply_some hs1
  simp only [TowerRepresentation.conv1, Nat.mul_zero, Nat.add_zero] at hs1c hs1h hs1w
  rw [div_step (by omega) (by omega : 2 ≤ x.h)] at hs1h
  rw [div_step (by omega) (by omega : 2 ≤ x.w)] at hs1w
  have hh2 : 2 ≤ x.h / 2 := (Nat.le_div_iff_mul_le (by omega)).mpr (by omega)
  have hw2 : 2 ≤ x.w / 2 := (Nat.le_div_iff_mul_le (by omega)).mpr (by omega)
  have hs2e : (m.conv2.apply (relu s1)).isSome := by
    apply Conv2dP.apply_isSome <;>
      simp only [TowerRepresentation.conv2, relu_n, relu_c, relu_h, relu_w,
        Nat.mul_zero, Nat.add_zero] <;> omega
  obtain ⟨s2, hs2⟩ := Option.isSome_iff_exists.mp hs2e
  obtain ⟨-, -, -, -, hs2n, hs2c, hs2h, hs2w⟩ := Conv2dP.apply_some hs2
  simp only [TowerRepresentation.conv2, relu_n, relu_c, relu_h, relu_w,
    Nat.mul_zero, Nat.add_zero] at hs2n hs2c hs2h hs2w
  rw [hs1h] at hs2h
  rw [hs1w] at hs2w
  rw [div_step (by omega) hh2] at hs2h
  rw [div_step (by omega) hw2] at hs2w
  rw [Nat.div_div_eq_div_mul] at hs2h hs2w
  norm_num at hs2h hs2w
  have ht3e : (m.conv3.apply (relu s1)).isSome := by
    apply Conv2dP.apply_isSome <;>
      simp only [TowerRepresentation.conv3, relu_n, relu_c, relu_h, relu_w] <;> omega
  obtain ⟨t3, ht3⟩ := Option.isSome_iff_exists.mp ht3e
  obtain ⟨-, -, -, -, ht3n, ht3c, ht3h, ht3w⟩ := Conv2dP.apply_some ht3
  simp only [TowerRepresentation.conv3, relu_n, relu_c, relu_h, relu_w,
    Nat.div_one] at ht3n ht3c ht3h ht3w
  have ht3h2 : t3.h = x.h / 2 := by omega
  have ht3w2 : t3.w = x.w / 2 := by omega
  have ht4e : (m.conv4.apply (relu t3)).isSome := by
    apply Conv2dP.apply_isSome <;>
      simp only [TowerRepresentation.conv4, relu_n, relu_c, relu_h, relu_w,
        Nat.mul_zero, Nat.add_zero] <;> omega
  obtain ⟨t4, ht4⟩ := Option.isSome_iff_exists.mp ht4e
  obtain ⟨-, -, -, -, ht4n, ht4c, ht4h, ht4w⟩ := Conv2dP.apply_some ht4
  simp only [TowerRepresentation.conv4, relu_n, relu_c, relu_h, relu_w,
    Nat.mul_zero, Nat.add_zero] at ht4n ht4c ht4h ht4w
  rw [ht3h2] at ht4h
  rw [ht3w2] at ht4w
  rw [div_step (by omega) hh2] at ht4h
  rw [div_step (by omega) hw2] at ht4w
  rw [Nat.div_div_eq_div_mul] at ht4h ht4w
  norm_num at ht4h ht4w
  constructor
  · simp only [towerBlock1Skip, hs1, obind_some, hs2, omap_some]
    unfold Tensor4.shape
    simp only [relu_n, relu_c, relu_h, relu_w]
    rw [hs2n, hs1n, hs2c, hs2h, hs2w]
  · simp only [towerBlock1Main, hs1, obind_some, ht3, obind_some, ht4, omap_some]
    unfold Tensor4.shape
    simp only [relu_n, relu_c, relu_h, relu_w]
    rw [ht4n, ht3n, hs1n, ht4c, ht4h, ht4w]

set_option maxHeartbeats 1000000 in
/-- Constructive success of the tower forward pass: with matching channel
count, batch, and viewpoint width, spatial extent at least 4, and block-1
extent H/4 = W/4 equal to the broadcast extent r_dim/16, no step of
`forward` fails. -/
theorem tower_forward_succeeds {m : TowerRepresentation} {x : Tensor4} {v : Tensor2}
    (hc : x.c = m.n_channels) (h4h : 4 ≤ x.h) (h4w : 4 ≤ x.w) (hvn : v.n = x.n)
    (hxn : 0 < x.n) (hvd : v.d = m.v_dim) (hH : x.h / 4 = m.r_dim / 16)
    (hW : x.w / 4 = m.r_dim / 16) : (m.forward x v).isSome := by
  have hbv : (m.broadcastView v).isSome := by
    unfold TowerRepresentation.broadcastView
    obtain ⟨v0, hv0⟩ := Option.isSome_iff_exists.mp
      (view4_isSome (v := v) (B := v.n) (by omega) (Nat.mul_mod_right v.n v.d))
    rw [hv0]
    rfl
  obtain ⟨v4, hv4⟩ := Option.isSome_iff_exists.mp hbv
  obtain ⟨-, hv4n, hv4c, hv4h, hv4w⟩ := broadcastView_some hv4
  have hs1e : (m.conv1.apply x).isSome := by
    apply Conv2dP.apply_isSome <;> simp only [TowerRepresentation.conv1] <;> omega
  obtain ⟨s1, hs1⟩ := Option.isSome_iff_exists.mp hs1e
  obtain ⟨-, -, -, -, hs1n, hs1c, hs1h, hs1w⟩ := Conv2dP.apply_some hs1
  simp only [TowerRepresentation.conv1, Nat.mul_zero, Nat.add_zero] at hs1c hs1h hs1w
  rw [div_step (by omega) (by omega : 2 ≤ x.h)] at hs1h
  rw [div_step (by omega) (by omega : 2 ≤ x.w)] at hs1w
  have hh2 : 2 ≤ x.h / 2 := (Nat.le_div_iff_mul_le (by omega)).mpr (by omega)
  have hw2 : 2 ≤ x.w / 2 := (Nat.le_div_iff_mul_le (by omega)).mpr (by omega)
  have h41 : 0 < x.h / 4 := Nat.div_pos h4h (by omega)
  have h41w : 0 < x.w / 4 := Nat.div_pos h4w (by omega)
  have hs2e : (m.conv2.apply (relu s1)).isSome := by
    apply Conv2dP.apply_isSome <;>
      simp only [TowerRepresentation.conv2, relu_n, relu_c, relu_h, relu_w,
        Nat.mul_zero, Nat.add_zero] <;> omega
  obtain ⟨s2, hs2⟩ := Option.isSome_iff_exists.mp hs2e
  obtain ⟨-, -, -, -, hs2n, hs2c, hs2h, hs2w⟩ := Conv2dP.apply_some hs2
  simp only [TowerRepresentation.conv2, relu_n, relu_c, relu_h, relu_w,
    Nat.mul_zero, Nat.add_zero] at hs2n hs2c hs2h hs2w
  rw [hs1h] at hs2h
  rw [hs1w] at hs2w
  rw [div_step (by omega) hh2] at hs2h
  rw [div_step (by omega) hw2] at hs2w
  rw [Nat.div_div_eq_div_mul] at hs2h hs2w
  norm_num at hs2h hs2w
  have ht3e : (m.conv3.apply (relu s1)).isSome := by
    apply Conv2dP.apply_isSome <;>
      simp only [TowerRepresentation.conv3, relu_n, relu_c, relu_h, relu_w] <;> omega
  obtain ⟨t3, ht3⟩ := Option.isSome_iff_exists.mp ht3e
  obtain ⟨-, -, -, -, ht3n, ht3c, ht3h, ht3w⟩ := Conv2dP.apply_some ht3
  simp only [TowerRepresentation.conv3, relu_n, relu_c, relu_h, relu_w,
    Nat.div_one] at ht3n ht3c ht3h ht3w
  have ht3h2 : t3.h = x.h / 2 := by omega
  have ht3w2 : t3.w = x.w / 2 := by omega
  have ht4e : (m.conv4.apply (relu t3)).isSome := by
    apply Conv2dP.apply_isSome <;>
      simp only [TowerRepresentation.conv4, relu_n, relu_c, relu_h, relu_w,
        Nat.mul_zero, Nat.add_zero] <;> omega
  obtain ⟨t4, ht4⟩ := Option.isSome_iff_exists.mp ht4e
  obtain ⟨-, -, -, -, ht4n, ht4c, ht4h, ht4w⟩ := Conv2dP.apply_some ht4
  simp only [TowerRepresentation.conv4, relu_n, relu_c, relu_h, relu_w,
    Nat.mul_zero, Nat.add_zero] at ht4n ht4c ht4h ht4w
  rw [ht3h2] at ht4h
  rw [ht3w2] at ht4w
  rw [div_step (by omega) hh2] at ht4h
  rw [div_step (by omega) hw2] at ht4w
  rw [Nat.div_div_eq_div_mul] at ht4h ht4w
  norm_num at ht4h ht4w
  have hadde : (addB (relu t4) (relu s2)).isSome := by
    apply addB_isSome <;> simp only [relu_n, relu_c, relu_h, relu_w] <;> omega
  obtain ⟨x2, hx2⟩ := Option.isSome_iff_exists.mp hadde
  obtain ⟨hbn, hbc, hbh, hbw⟩ := addB_some hx2
  simp only [relu_n, relu_c, relu_h, relu_w] at hbn hbc hbh hbw
  rw [ht4n, ht3n, hs2n, hs1n] at hbn
  rw [ht4c, hs2c] at hbc
  rw [ht4h, hs2h] at hbh
  rw [ht4w, hs2w] at hbw
  have hx2n : x2.n = x.n := bcast_eq hbn
  have hx2c : x2.c = m.r_dim := bcast_eq hbc
  have hx2h : x2.h = x.h / 4 := bcast_eq hbh
  have hx2w : x2.w = x.w / 4 := bcast_eq hbw
  clear hbn hbc hbh hbw hs1c hs1h hs1w hs2n hs2c hs2h hs2w
  clear ht3n ht3c ht3h ht3w ht3h2 ht3w2 ht4n ht4c ht4h ht4w
  clear hs1e hs2e ht3e ht4e hadde hbv hs1n
  have hcate : (cat1 x2 v4).isSome := by
    apply cat1_isSome <;> omega
  obtain ⟨m2, hm2⟩ := Option.isSome_iff_exists.mp hcate
  obtain ⟨-, -, -, hm2n, hm2c, hm2h, hm2w⟩ := cat1_some hm2
  have hm2c2 : m2.c = m.r_dim + m.v_dim := by omega
  have hm2h2 : m2.h = x.h / 4 := by omega
  have hm2w2 : m2.w = x.w / 4 := by omega
  have hm2n2 : m2.n = x.n := by omega
  clear hm2n hm2c hm2h hm2w hcate hx2n hx2c hx2h hx2w hv4n hv4c hv4h hv4w
  have hs5e : (m.conv5.apply m2).isSome := by
    apply Conv2dP.apply_isSome <;> simp only [TowerRepresentation.conv5] <;> omega
  obtain ⟨s5, hs5⟩ := Option.isSome_iff_exists.mp hs5e
  obtain ⟨-, -, -, -, hs5n, hs5c, hs5h, hs5w⟩ := Conv2dP.apply_some hs5
  simp only [TowerRepresentation.conv5, Nat.div_one] at hs5n hs5c hs5h hs5w
  have hs5h2 : s5.h = x.h / 4 := by omega
  have hs5w2 : s5.w = x.w / 4 := by omega
  have ht6e : (m.conv6.apply m2).isSome := by
    apply Conv2dP.apply_isSome <;> simp only [TowerRepresentation.conv6] <;> omega
  obtain ⟨t6, ht6⟩ := Option.isSome_iff_exists.mp ht6e
  obtain ⟨-, -, -, -, ht6n, ht6c, ht6h, ht6w⟩ := Conv2dP.apply_some ht6
  simp only [TowerRepresentation.conv6, Nat.div_one] at ht6n ht6c ht6h ht6w
  have ht6h2 : t6.h = x.h / 4 := by omega
  have ht6w2 : t6.w = x.w / 4 := by omega
  have ht7e : (m.conv7.apply (relu t6)).isSome := by
    apply Conv2dP.apply_isSome <;>
      simp only [TowerRepresentation.conv7, relu_n, relu_c, relu_h, relu_w] <;> omega
  obtain ⟨t7, ht7⟩ := Option.isSome_iff_exists.mp ht7e
  obtain ⟨-, -, -, -, ht7n, ht7c, ht7h, ht7w⟩ := Conv2dP.apply_some ht7
  simp only [TowerRepresentation.conv7, relu_n, relu_c, relu_h, relu_w,
    Nat.div_one] at ht7n ht7c ht7h ht7w
  have ht7h2 : t7.h = x.h / 4 := by omega
  have ht7w2 : t7.w = x.w / 4 := by omega
  have hadde2 : (addB (relu t7) (relu s5)).isSome := by
    apply addB_isSome <;> simp only [relu_n, relu_c, relu_h, relu_w] <;> omega
  obtain ⟨y, hy⟩ := Option.isSome_iff_exists.mp hadde2
  obtain ⟨hyn, hyc, hyh, hyw⟩ := addB_some hy
  simp only [relu_n, relu_c, relu_h, relu_w] at hyn hyc hyh hyw
  rw [ht7n, ht6n, hs5n] at hyn
  rw [ht7c, hs5c] at hyc
  rw [ht7h2, hs5h2] at hyh
  rw [ht7w2, hs5w2] at hyw
  have hyn2 : y.n = x.n := by
    have := bcast_eq hyn
    omega
  have hyc2 : y.c = m.r_dim := bcast_eq hyc
  have hyh2 : y.h = x.h / 4 := bcast_eq hyh
  have hyw2 : y.w = x.w / 4 := bcast_eq hyw
  clear hyn hyc hyh hyw hs5n hs5c ht6n ht6c ht7n ht7c
  clear hs5h hs5w ht6h ht6w ht7h ht7w hs5h2 hs5w2 ht6h2 ht6w2 ht7h2 ht7w2
  clear hs5e ht6e ht7e hadde2 hm2c2 hm2h2 hm2w2 hm2n2
  have hr8e : (m.conv8.apply y).isSome := by
    apply Conv2dP.apply_isSome <;> simp only [TowerRepresentation.conv8] <;> omega
  obtain ⟨r8, hr8⟩ := Option.isSome_iff_exists.mp hr8e
  obtain ⟨-, -, -, -, hr8n, hr8c, hr8h, hr8w⟩ := Conv2dP.apply_some hr8
  simp only [TowerRepresentation.conv8, Nat.mul_zero, Nat.add_zero,
    Nat.div_one] at hr8n hr8c hr8h hr8w
  have hr8h2 : r8.h = x.h / 4 := by omega
  have hr8w2 : r8.w = x.w / 4 := by omega
  unfold TowerRepresentation.forward
  simp only [hv4, hs1, hs2, ht3, ht4, hx2, hm2, hs5, ht6, ht7, hy, hr8, obind_some]
  cases hp : m.pool with
  | true =>
    show (avgpool (m.r_dim / 16) (relu r8)).isSome = true
    have hq : 0 < m.r_dim / 16 := by omega
    have hqh : m.r_dim / 16 ≤ (relu r8).h := by
      simp only [relu_h]
      omega
    have hqw : m.r_dim / 16 ≤ (relu r8).w := by
      simp only [relu_w]
      omega
    exact avgpool_isSome hq hqh hqw
  | false => rfl

/-- C10 counterexample: at H = W = 2 (which the claim admits, requiring only
H, W ≥ 2) the first convolution succeeds but the second convolution of
block 1 — inside the skip branch, before any residual addition and before
the channel concatenation — already fails, because 2/2 = 1 is smaller than
its kernel: the branches never produce the claimed shape with spatial
extent floor(floor(2/2)/2) = 0, and a spatial constraint other than the
concatenation fails. -/
theorem tower_block1_fails_at_2 :
    (Mt16.conv1.apply X2).isSome = true ∧ towerBlock1Skip Mt16 X2 = none ∧
      Mt16.forward X2 V1 = none ∧ X2.h / 2 / 2 = 0 :=
  ⟨rfl, rfl, rfl, rfl⟩

/-- C10 (amended): for every input image with H, W ≥ 4 (not ≥ 2) and
matching channel and viewpoint dimensions, both branches of residual
block 1 produce shape (B, r_dim, H/4, W/4) — so both elementwise residual
additions are shape-consistent — and the forward pass succeeds exactly
when the block-1 spatial extent H/4, W/4 equals the broadcast extent
r_dim/16: the concatenation is the only remaining constraint that can
fail. -/
theorem tower_block1_consistency :
    ∀ (m : TowerRepresentation) (x : Tensor4) (v : Tensor2),
      x.c = m.n_channels → 4 ≤ x.h → 4 ≤ x.w → v.n = x.n → 0 < x.n → v.d = m.v_dim →
      (towerBlock1Skip m x).map Tensor4.shape = some (x.n, m.r_dim, x.h / 4, x.w / 4) ∧
      (towerBlock1Main m x).map Tensor4.shape = some (x.n, m.r_dim, x.h / 4, x.w / 4) ∧
      ((m.forward x v).isSome = true ↔
        x.h / 4 = m.r_dim / 16 ∧ x.w / 4 = m.r_dim / 16) := by
  intro m x v hc h4h h4w hvn hxn hvd
  obtain ⟨hskip, hmain⟩ := tower_block1_shape hc h4h h4w
  refine ⟨hskip, hmain, ⟨?_, ?_⟩⟩
  · intro hS
    obtain ⟨r, hr⟩ := Option.isSome_iff_exists.mp hS
    have hsp := tower_forward_shape hr
    exact ⟨hsp.2.2.2.2.1, hsp.2.2.2.2.2.1⟩
  · intro hHW
    exact tower_forward_succeeds hc h4h h4w hvn hxn hvd hHW.1 hHW.2

/-- C10 witness: the amended theorem applied to the concrete 64 × 64 tower
run, where both block-1 branches produce (1, 256, 16, 16) and the forward
pass succeeds since 64/4 = 256/16 = 16. -/
theorem tower_block1_consistency_witness :
    (towerBlock1Skip Mt64 X64).map Tensor4.shape = some (1, 256, 16, 16) ∧
      (towerBlock1Main Mt64 X64).map Tensor4.shape = some (1, 256, 16, 16) ∧
      (Mt64.forward X64 V7).isSome = true := by
  have hsp := tower_block1_consistency Mt64 X64 V7 rfl (by decide) (by decide) rfl
    (by decide) rfl
  exact ⟨hsp.1, hsp.2.1, hsp.2.2.mpr ⟨by decide, by decide⟩⟩
